import Mathlib

/-!
# Verification of the DRG-Mod-Updater reconciliation and download pipeline

Shallow embedding of `start.mjs`. JavaScript strings are modelled as `List Char`
(`Str`); JS string operations (`split`, `replace` (first occurrence), `trim`,
default `sort`) are implemented below with their JS semantics. Stateful and
promise-based code is modelled by explicit result passing: a settled promise is
an `Except` value.
-/

namespace DRG

/-- JavaScript strings, modelled as lists of characters. -/
abbrev Str := List Char

/-- Embed a Lean string literal as a `Str`. -/
def str (s : String) : Str := s.data

/-- The literal `' - '` separator from `start.mjs` line 46. -/
def sepDash : Str := str " - "

/-- The literal `'_P.pak'` suffix from `start.mjs` line 51. -/
def pakSuffix : Str := str "_P.pak"

/-- The literal `'V'` version marker from `start.mjs` line 51. -/
def vMark : Str := str "V"

/-- `occursB pat l` is true iff `pat` occurs as a contiguous substring of `l`
(at any position, including the empty pattern). -/
def occursB (pat : Str) : Str → Bool
  | [] => pat.isEmpty
  | l@(_ :: cs) => pat.isPrefixOf l || occursB pat cs

/-- Fuel-driven worker for JS `String.prototype.split` with a non-empty
separator: non-overlapping, left-to-right.  Structural recursion on the fuel
keeps kernel reduction (`decide`/`rfl`) available. -/
def splitGo (sep : Str) : Nat → Str → List Str
  | _, [] => [[]]
  | 0, l => [l]
  | fuel + 1, c :: cs =>
    if sep.isPrefixOf (c :: cs) && !sep.isEmpty then
      [] :: splitGo sep fuel ((c :: cs).drop sep.length)
    else
      match splitGo sep fuel cs with
      | [] => [[c]]
      | s :: ss => (c :: s) :: ss

/-- JS `l.split(sep)` for a non-empty separator (`start.mjs` uses `' - '` and
`'V'`; the empty-separator behaviour of JS is not needed and not modelled). -/
def jsSplit (sep l : Str) : List Str := splitGo sep l.length l

/-- JS `l.replace(pat, rep)` for string patterns: replaces only the first
occurrence, or returns the string unchanged when there is none. -/
def replaceFirst (pat rep : Str) : Str → Str
  | [] => []
  | c :: cs =>
    if pat.isPrefixOf (c :: cs) && !pat.isEmpty then
      rep ++ (c :: cs).drop pat.length
    else
      c :: replaceFirst pat rep cs

/-- JS `l.trim()`: strip leading and trailing whitespace.  (JS trims the full
Unicode whitespace set; the filenames in this development only ever carry
ASCII whitespace, for which `Char.isWhitespace` agrees.) -/
def trim (l : Str) : Str :=
  ((l.reverse.dropWhile Char.isWhitespace).reverse).dropWhile Char.isWhitespace

/-- Lexicographic comparison by code unit, the default JS `Array.sort`
comparator on strings (`a <= b`). -/
def strLe : Str → Str → Bool
  | [], _ => true
  | _ :: _, [] => false
  | c :: cs, d :: ds => if c = d then strLe cs ds else decide (c.toNat < d.toNat)

/-- Insert into a sorted list, before the first element that is `≥` (stable). -/
def insertSorted (x : Str) : List Str → List Str
  | [] => [x]
  | y :: ys => if strLe x y then x :: y :: ys else y :: insertSorted x ys

/-- JS `files.sort()` (default string comparator, stable). -/
def jsSort (l : List Str) : List Str := l.foldr insertSorted []

/-- JS object property write `m[k] = v` for string keys: overwrite in place if
the key is present, else append (JS objects preserve insertion order). -/
def setKey (m : List (Str × Str)) (k v : Str) : List (Str × Str) :=
  if m.any (fun p => p.1 == k) then
    m.map (fun p => if p.1 == k then (k, v) else p)
  else
    m ++ [(k, v)]

/-- JS object property read `m[k]` for string keys: `none` models `undefined`. -/
def getKey (m : List (Str × Str)) (k : Str) : Option Str :=
  (m.find? (fun p => p.1 == k)).map (·.2)

/-- One entry of the normalized remote registry array (`start.mjs` 156-168):
the slug key plus the spread fields used by the pipeline. -/
structure RemoteModEntry where
  slug : Str
  DisplayName : Str
  Version : Str
  DownloadUrl : Str
deriving DecidableEq

/-- The fields of one value of the registry JSON object (keys are slugs). -/
structure RemoteFields where
  DisplayName : Str
  Version : Str
  DownloadUrl : Str
deriving DecidableEq

/-- The accumulator of `getInstalledMods` (`start.mjs` 45-57):
`{names: [], versions: {}}`. -/
structure InstalledMods where
  names : List Str
  versions : List (Str × Str)
deriving DecidableEq

/-- The body of the `reduce` in `getInstalledMods` (`start.mjs` 46-54), up to
the pushes: `item.split(' - ')`, and when more than one part results, the raw
name `itemSplit[0]` and the version
`itemSplit[1].replace('_P.pak','').split('V')[1] || '1'`, trimmed.
Returns `none` for filenames that are skipped. -/
def rawParse (item : Str) : Option (Str × Str) :=
  let itemSplit := jsSplit sepDash item
  if 1 < itemSplit.length then
    let name := itemSplit.getD 0 []
    let seg := (jsSplit vMark (replaceFirst pakSuffix [] (itemSplit.getD 1 []))).getD 1 []
    let version := if seg.isEmpty then str "1" else seg
    some (name, trim version)
  else
    none

/-- One step of the `reduce` in `getInstalledMods` (`start.mjs` 45-57):
`mods.names.push(name.trim()); mods.versions[name] = version.trim()`.
Note the versions key is the raw, untrimmed `name`. -/
def parseStep (mods : InstalledMods) (item : Str) : InstalledMods :=
  match rawParse item with
  | some (name, version) =>
    ⟨mods.names ++ [trim name], setKey mods.versions name version⟩
  | none => mods

/-- The pure core of `getInstalledMods` (`start.mjs` 40-61), applied to the
result of `readdir`: `files.sort()` then the `reduce` with initial accumulator
`{names: [], versions: {}}`. -/
def getInstalledMods (files : List Str) : InstalledMods :=
  (jsSort files).foldl parseStep ⟨[], []⟩

/-- `findMatchingMods` (`start.mjs` 63-67): filter the registry array to the
entries whose `DisplayName` appears in `installedMods.names`
(`indexOf(...) !== -1`). -/
def findMatchingMods (remoteRegistryArray : List RemoteModEntry)
    (installedMods : InstalledMods) : List RemoteModEntry :=
  remoteRegistryArray.filter (fun item => installedMods.names.contains item.DisplayName)

/-- `checkOutdatedMods` (`start.mjs` 69-73): keep the matching entries with
`installedMods.versions[item.DisplayName] !== item.Version`.  A missing key
(`undefined`) is unequal to every version string. -/
def checkOutdatedMods (matchingMods : List RemoteModEntry)
    (installedMods : InstalledMods) : List RemoteModEntry :=
  matchingMods.filter
    (fun item => !(getKey installedMods.versions item.DisplayName == some item.Version))

/-- The download-target filename derived in `downloadFile` (`start.mjs` 77):
`` `${item.DisplayName} - V${item.Version} _P.pak` `` (note the space before
`_P.pak`). -/
def fileName (item : RemoteModEntry) : Str :=
  item.DisplayName ++ str " - V" ++ item.Version ++ str " _P.pak"

deriving instance DecidableEq for Except

/-- The observable outcome of one `downloadFile` call (`start.mjs` 75-103),
given the settled result of `await got.head(url)` (carrying the
`content-length` header on success) and of the `pipeline` streaming the body
to disk. -/
structure DownloadFileOutcome where
  /-- The total handed to the per-file progress bar (`content-length`). -/
  progressTotal : Option Str
  /-- Whether `got.stream(url)` / `createWriteStream` were ever reached. -/
  downloadAttempted : Bool
  /-- Whether the pipeline completed and the file holds the full content. -/
  fileWritten : Bool
  /-- The settled state of the promise returned by `downloadFile`. -/
  result : Except Str Unit
deriving DecidableEq

/-- `downloadFile` (`start.mjs` 75-103).  The `await got.head(url)` on line 79
has no guard: if the probe rejects, the async function rejects right there and
the streaming download is never started.  Otherwise the body is streamed and
the promise settles with the pipeline's outcome. -/
def downloadFile (item : RemoteModEntry) (probe : Except Str Str)
    (body : Except Str Unit) : DownloadFileOutcome :=
  let _ := fileName item
  match probe with
  | .error e => ⟨none, false, false, .error e⟩
  | .ok contentLength =>
    match body with
    | .ok () => ⟨some contentLength, true, true, .ok ()⟩
    | .error e => ⟨some contentLength, true, false, .error e⟩

/-- `Promise.all` over the settled per-task results: succeeds with the list of
fulfilment values only when every task fulfils; otherwise rejects with a
failing task's error.  (The real `Promise.all` rejects with the temporally
first rejection; with settled results and no timing, the first error in task
order stands in for it — every claim below uses at most one failing task, for
which the two coincide.) -/
def promiseAll : List (Except Str Unit) → Except Str (List Unit)
  | [] => .ok []
  | .ok () :: rest => (promiseAll rest).map (fun l => () :: l)
  | .error e :: _ => .error e

/-- The observable outcome of `downloadOutdatedMods` (`start.mjs` 105-130). -/
structure OrchestratorOutcome where
  /-- The settled state of `Promise.all(promises)`. -/
  joinResult : Except Str (List Unit)
  /-- The error logged by `console.error('Failed to download files', err)`. -/
  reportedError : Option Str
  /-- Whether `finished(startBar)` was invoked. -/
  reachedFinished : Bool
deriving DecidableEq

/-- `downloadOutdatedMods` (`start.mjs` 105-130), given the settled result of
each spawned `downloadFile` promise: `Promise.all(promises)` then
`finished(startBar)` on fulfilment, or `console.error` and `finished(startBar)`
on rejection. -/
def downloadOutdatedMods (taskResults : List (Except Str Unit)) : OrchestratorOutcome :=
  match promiseAll taskResults with
  | .ok l => ⟨.ok l, none, true⟩
  | .error e => ⟨.error e, some e, true⟩

/-- Stable insertion by `DisplayName`, for the registry sort in `checkMods`. -/
def sortInsertByName (x : RemoteModEntry) : List RemoteModEntry → List RemoteModEntry
  | [] => [x]
  | y :: ys => if strLe x.DisplayName y.DisplayName then x :: y :: ys else y :: sortInsertByName x ys

/-- The normalization in `checkMods` (`start.mjs` 156-168): spread each
`(slug, fields)` pair of the registry object into a `RemoteModEntry` and sort
by `DisplayName`.  (The source sorts with `localeCompare`, a locale-dependent
comparator; it is modelled by code-unit order here.  The spec itself notes the
ordering is cosmetic, and no claim in this development depends on it.) -/
def normalizeRegistry (registry : List (Str × RemoteFields)) : List RemoteModEntry :=
  ((registry.map (fun p => RemoteModEntry.mk p.1 p.2.DisplayName p.2.Version p.2.DownloadUrl)).foldr
    (fun x sorted => sortInsertByName x sorted) [])

/-- The observable outcome of one whole run of `checkMods` (`start.mjs`
142-185). -/
structure RunReport where
  /-- Whether the reconciliation (`findMatchingMods`/`checkOutdatedMods`) ran. -/
  reconciled : Bool
  /-- The download tasks created (the outdated set handed to the orchestrator). -/
  downloadTasks : List RemoteModEntry
  /-- The error logged by `console.error('Failed to get data', err)`. -/
  fatalError : Option Str
  /-- The orchestrator outcome, when downloads were started. -/
  orchestrator : Option OrchestratorOutcome
  /-- Whether `finished(startBar)` ran (prints 'Finished updating Mods'). -/
  reachedFinished : Bool
  /-- The process exit status.  `finished` calls `process.exit(0)`; on the
  startup-failure path the error is caught, nothing calls `process.exit`, and
  the drained event loop also exits with status `0`. -/
  exitCode : Nat
deriving DecidableEq

/-- `checkMods` (`start.mjs` 142-185), given the settled results of
`fetchRegistry` and `readdir` (the `Promise.all` startup join rejects with the
error of a failing arm) and, for each mod, the settled results of its probe and
body stream.  On startup failure the `.catch` only logs; otherwise the run
reconciles, downloads the outdated set when non-empty, and reaches
`finished`. -/
def checkMods (registryRes : Except Str (List (Str × RemoteFields)))
    (filesRes : Except Str (List Str))
    (probe : RemoteModEntry → Except Str Str)
    (body : RemoteModEntry → Except Str Unit) : RunReport :=
  match registryRes, filesRes with
  | .error e, _ => ⟨false, [], some e, none, false, 0⟩
  | .ok _, .error e => ⟨false, [], some e, none, false, 0⟩
  | .ok registry, .ok files =>
    let remoteRegistryArray := normalizeRegistry registry
    let installedMods := getInstalledMods files
    let matchingMods := findMatchingMods remoteRegistryArray installedMods
    let outdatedMods := checkOutdatedMods matchingMods installedMods
    if outdatedMods.isEmpty then
      ⟨true, outdatedMods, none, none, true, 0⟩
    else
      let orch := downloadOutdatedMods
        (outdatedMods.map (fun i => (downloadFile i (probe i) (body i)).result))
      ⟨true, outdatedMods, none, some orch, orch.reachedFinished, 0⟩

-- sanity checks (JS semantics)
example : jsSplit sepDash (str "A - B - V2_P.pak") = [str "A", str "B", str "V2_P.pak"] := by decide
example : jsSplit sepDash (str "plain.pak") = [str "plain.pak"] := by decide
example : jsSplit sepDash (str "A - ") = [str "A", str ""] := by decide
example : replaceFirst pakSuffix [] (str "V2_P.pak") = str "V2" := by decide
example : replaceFirst pakSuffix [] (str "x_P.pak_P.pak") = str "x_P.pak" := by decide
example : trim (str "  Foo ") = str "Foo" := by decide
example : jsSort [str "Foo - V2_P.pak", str "Foo - V1_P.pak"] =
    [str "Foo - V1_P.pak", str "Foo - V2_P.pak"] := by decide
example : jsSplit vMark (str "V2") = [str "", str "2"] := by decide
example : rawParse (str "Foo - V2_P.pak") = some (str "Foo", str "2") := by decide
example : rawParse (str "Foo - _P.pak") = some (str "Foo", str "1") := by decide
example : rawParse (str "plain.pak") = none := by decide
example : rawParse (str "A - B - V2_P.pak") = some (str "A", str "1") := by decide
example : getInstalledMods [str "Foo - V1_P.pak", str "Foo - V2_P.pak"] =
    ⟨[str "Foo", str "Foo"], [(str "Foo", str "2")]⟩ := by decide
example : getInstalledMods [str "Foo  - V2_P.pak"] =
    ⟨[str "Foo"], [(str "Foo ", str "2")]⟩ := by decide

/-! ## String lemmas: split, replace, trim -/

theorem if_bool_true {α : Sort _} {b : Bool} (x y : α) (h : b = true) :
    (if b then x else y) = x := by
  subst h
  rfl

theorem if_bool_false {α : Sort _} {b : Bool} (x y : α) (h : b = false) :
    (if b then x else y) = y := by
  subst h
  rfl

theorem pfx_self_append (A B : Str) : A.isPrefixOf (A ++ B) = true := by
  rw [ List.isPrefixOf_iff_prefix]
  exact List.prefix_append A B

theorem pfx_stable (pat : Str) : ∀ (A B C : Str), pat.length ≤ A.length →
    pat.isPrefixOf (A ++ B) = pat.isPrefixOf (A ++ C) := by
  induction pat with
  | nil =>
    intro A B C _
    simp
  | cons p ps ih =>
    intro A B C h
    cases A with
    | nil => simp at h
    | cons a as =>
      simp only [List.cons_append, List.isPrefixOf_cons₂]
      rw [ih as B C (by simpa using h)]

theorem occursB_nil (pat : Str) : occursB pat [] = pat.isEmpty := rfl

theorem occursB_cons (pat : Str) (c : Char) (cs : Str) :
    occursB pat (c :: cs) = (pat.isPrefixOf (c :: cs) || occursB pat cs) := rfl

theorem splitGo_nil (sep : Str) (f : Nat) : splitGo sep f [] = [[]] := by
  cases f <;> rfl

theorem splitGo_zero (sep : Str) (l : Str) (h : l ≠ []) : splitGo sep 0 l = [l] := by
  cases l with
  | nil => exact absurd rfl h
  | cons c cs => rfl

theorem splitGo_succ_cons (sep : Str) (fuel : Nat) (c : Char) (cs : Str) :
    splitGo sep (fuel + 1) (c :: cs) =
      if sep.isPrefixOf (c :: cs) && !sep.isEmpty then
        [] :: splitGo sep fuel ((c :: cs).drop sep.length)
      else
        match splitGo sep fuel cs with
        | [] => [[c]]
        | s :: ss => (c :: s) :: ss := rfl

theorem splitGo_fuel_irrel (sep : Str) :
    ∀ (f : Nat) (g : Nat) (l : Str), l.length ≤ f → l.length ≤ g →
      splitGo sep f l = splitGo sep g l := by
  intro f
  induction f using Nat.strong_induction_on with
  | _ f ih =>
    intro g l hf hg
    cases l with
    | nil => rw [splitGo_nil, splitGo_nil]
    | cons c cs =>
      cases f with
      | zero => simp at hf
      | succ f' =>
        cases g with
        | zero => simp at hg
        | succ g' =>
          simp only [List.length_cons] at hf hg
          rw [splitGo_succ_cons, splitGo_succ_cons]
          by_cases hc : (sep.isPrefixOf (c :: cs) && !sep.isEmpty) = true
          · rw [if_bool_true _ _ hc, if_bool_true _ _ hc]
            have hsep : sep ≠ [] := by
              intro hn
              simp [hn, List.isEmpty] at hc
            have hsl : 1 ≤ sep.length := List.length_pos.mpr hsep
            have hdl : ((c :: cs).drop sep.length).length ≤ cs.length := by
              simp only [List.length_drop, List.length_cons]
              omega
            rw [ih f' (Nat.lt_succ_self f') g' _ (by omega) (by omega)]
          · rw [if_bool_false _ _ (Bool.eq_false_iff.mpr hc),
              if_bool_false _ _ (Bool.eq_false_iff.mpr hc)]
            rw [ih f' (Nat.lt_succ_self f') g' cs (by omega) (by omega)]

theorem splitGo_eq_jsSplit (sep : Str) (f : Nat) (l : Str) (hf : l.length ≤ f) :
    splitGo sep f l = jsSplit sep l :=
  splitGo_fuel_irrel sep f l.length l hf (Nat.le_refl _)

theorem jsSplit_no_occ (sep : Str) : ∀ (l : Str), occursB sep l = false →
    jsSplit sep l = [l] := by
  have aux : ∀ (l : Str) (f : Nat), occursB sep l = false → splitGo sep f l = [l] := by
    intro l
    induction l with
    | nil =>
      intro f _
      rw [splitGo_nil]
    | cons c cs ih =>
      intro f h
      rw [occursB_cons, Bool.or_eq_false_iff] at h
      cases f with
      | zero => exact splitGo_zero sep _ (by simp)
      | succ f' =>
        rw [splitGo_succ_cons,
          if_bool_false _ _ (by rw [h.1, Bool.false_and]), ih f' h.2]
  intro l h
  exact aux l l.length h

theorem jsSplit_boundary (sep₀ : Str) (c : Char) (sep : Str) (hsep : sep = sep₀ ++ [c]) :
    ∀ (D R : Str), occursB sep (D ++ sep₀) = false →
      jsSplit sep (D ++ sep ++ R) = D :: jsSplit sep R := by
  have hne : sep ≠ [] := by
    rw [hsep]
    simp
  obtain ⟨s, ss, hs⟩ := List.exists_cons_of_ne_nil hne
  have hemp : sep.isEmpty = false := by rw [hs]; rfl
  have hsl : 1 ≤ sep.length := List.length_pos.mpr hne
  have aux : ∀ (D : Str) (f : Nat) (R : Str), (D ++ sep ++ R).length ≤ f →
      occursB sep (D ++ sep₀) = false →
      splitGo sep f (D ++ sep ++ R) = D :: jsSplit sep R := by
    intro D
    induction D with
    | nil =>
      intro f R hf _
      simp only [List.nil_append] at hf ⊢
      simp only [List.length_append] at hf
      cases f with
      | zero => omega
      | succ f' =>
        have hshape : sep ++ R = s :: (ss ++ R) := by rw [hs]; rfl
        rw [hshape, splitGo_succ_cons]
        have hcond : (sep.isPrefixOf (s :: (ss ++ R)) && !sep.isEmpty) = true := by
          rw [← hshape, pfx_self_append, hemp]
          rfl
        rw [if_bool_true _ _ hcond, ← hshape, List.drop_left]
        rw [splitGo_eq_jsSplit sep f' R (by omega)]
    | cons d D' ih =>
      intro f R hf hocc
      simp only [List.cons_append] at hf hocc ⊢
      rw [occursB_cons, Bool.or_eq_false_iff] at hocc
      simp only [List.length_cons] at hf
      cases f with
      | zero => omega
      | succ f' =>
        rw [splitGo_succ_cons]
        have hre : d :: (D' ++ sep ++ R) = (d :: (D' ++ sep₀)) ++ (c :: R) := by
          rw [hsep]
          simp
        have hpf : sep.isPrefixOf (d :: (D' ++ sep ++ R)) = false := by
          rw [hre, pfx_stable sep (d :: (D' ++ sep₀)) (c :: R) []
            (by simp [hsep]), List.append_nil]
          exact hocc.1
        rw [if_bool_false _ _ (by rw [hpf, Bool.false_and])]
        rw [ih f' R (by omega) hocc.2]
  intro D R hocc
  exact aux D (D ++ sep ++ R).length R (Nat.le_refl _) hocc

theorem replaceFirst_boundary (pat₀ : Str) (c : Char) (pat rep : Str)
    (hpat : pat = pat₀ ++ [c]) :
    ∀ (A B : Str), occursB pat (A ++ pat₀) = false →
      replaceFirst pat rep (A ++ pat ++ B) = A ++ rep ++ B := by
  have hne : pat ≠ [] := by
    rw [hpat]
    simp
  obtain ⟨s, ss, hs⟩ := List.exists_cons_of_ne_nil hne
  have hemp : pat.isEmpty = false := by rw [hs]; rfl
  intro A
  induction A with
  | nil =>
    intro B _
    simp only [List.nil_append]
    have hshape : pat ++ B = s :: (ss ++ B) := by rw [hs]; rfl
    rw [hshape]
    show (if pat.isPrefixOf (s :: (ss ++ B)) && !pat.isEmpty then
        rep ++ (s :: (ss ++ B)).drop pat.length
      else s :: replaceFirst pat rep (ss ++ B)) = rep ++ B
    have hcond : (pat.isPrefixOf (s :: (ss ++ B)) && !pat.isEmpty) = true := by
      rw [← hshape, pfx_self_append, hemp]
      rfl
    rw [if_bool_true _ _ hcond, ← hshape, List.drop_left]
  | cons a A' ih =>
    intro B hocc
    simp only [List.cons_append] at hocc ⊢
    rw [occursB_cons, Bool.or_eq_false_iff] at hocc
    have hre : a :: (A' ++ pat ++ B) = (a :: (A' ++ pat₀)) ++ (c :: B) := by
      rw [hpat]
      simp
    have hpf : pat.isPrefixOf (a :: (A' ++ pat ++ B)) = false := by
      rw [hre, pfx_stable pat (a :: (A' ++ pat₀)) (c :: B) []
        (by simp [hpat]), List.append_nil]
      exact hocc.1
    show (if pat.isPrefixOf (a :: (A' ++ pat ++ B)) && !pat.isEmpty then
        rep ++ (a :: (A' ++ pat ++ B)).drop pat.length
      else a :: replaceFirst pat rep (A' ++ pat ++ B)) = a :: (A' ++ rep ++ B)
    rw [if_bool_false _ _ (by rw [hpf, Bool.false_and]), ih B hocc.2]

theorem trim_append_space (l : Str) : trim (l ++ [' ']) = trim l := by
  simp [trim, List.dropWhile]

/-- A single-character pattern occurs exactly where the character is a member. -/
theorem occursB_single (c : Char) : ∀ (l : Str), occursB [c] l = l.any (fun x => c == x) := by
  intro l
  induction l with
  | nil => rfl
  | cons x xs ih =>
    rw [occursB_cons, List.any_cons, ← ih]
    simp [List.isPrefixOf_cons₂]

/-! ## Lemmas about the JS-object model -/

theorem getKey_cons (p : Str × Str) (ps : List (Str × Str)) (k : Str) :
    getKey (p :: ps) k = if p.1 == k then some p.2 else getKey ps k := by
  unfold getKey
  rw [List.find?_cons]
  cases h : (p.1 == k) <;> simp [h]

theorem getKey_setKey_self (m : List (Str × Str)) (k v : Str) :
    getKey (setKey m k v) k = some v := by
  unfold setKey
  by_cases hmem : m.any (fun p => p.1 == k) = true
  · rw [if_bool_true _ _ hmem]
    induction m with
    | nil => simp at hmem
    | cons p ps ih =>
      by_cases hp : p.1 = k
      · simp [getKey, hp]
      · have hb : (p.1 == k) = false := by simp [hp]
        simp only [List.any_cons, hb, Bool.false_or] at hmem
        simpa [getKey, hb, hp] using ih hmem
  · rw [if_bool_false _ _ (Bool.eq_false_iff.mpr hmem)]
    have hmem' : m.any (fun p => p.1 == k) = false := Bool.eq_false_iff.mpr hmem
    rw [List.any_eq_false] at hmem'
    have hnone : m.find? (fun p => p.1 == k) = none := List.find?_eq_none.mpr hmem'
    simp [getKey, hnone]

theorem getKey_setKey_ne (m : List (Str × Str)) (k v k' : Str) (hk : k' ≠ k) :
    getKey (setKey m k v) k' = getKey m k' := by
  have hkk : (k == k') = false := by simp [Ne.symm hk]
  unfold setKey
  by_cases hmem : m.any (fun p => p.1 == k) = true
  · rw [if_bool_true _ _ hmem]
    clear hmem
    induction m with
    | nil => rfl
    | cons p ps ih =>
      rw [List.map_cons]
      by_cases hp : (p.1 == k) = true
      · have hpk : p.1 = k := by simpa using hp
        have h2 : (p.1 == k') = false := by simp [hpk, Ne.symm hk]
        rw [if_bool_true _ _ hp, getKey_cons, getKey_cons]
        rw [if_bool_false _ _ hkk, if_bool_false _ _ h2]
        exact ih
      · rw [if_bool_false _ _ (Bool.eq_false_iff.mpr hp), getKey_cons, getKey_cons]
        by_cases hq : (p.1 == k') = true
        · rw [if_bool_true _ _ hq, if_bool_true _ _ hq]
        · rw [if_bool_false _ _ (Bool.eq_false_iff.mpr hq),
            if_bool_false _ _ (Bool.eq_false_iff.mpr hq)]
          exact ih
  · rw [if_bool_false _ _ (Bool.eq_false_iff.mpr hmem)]
    unfold getKey
    rw [List.find?_append]
    have h1 : List.find? (fun p => p.1 == k') [(k, v)] = none := by
      simp [List.find?, hkk]
    rw [h1, Option.or_none]

/-! ## Lemmas about sorting and comparison -/

theorem mem_insertSorted (x y : Str) : ∀ (l : List Str),
    (y ∈ insertSorted x l ↔ y = x ∨ y ∈ l) := by
  intro l
  induction l with
  | nil => simp [insertSorted]
  | cons z zs ih =>
    unfold insertSorted
    by_cases h : strLe x z = true
    · rw [if_bool_true _ _ h]
      simp
    · rw [if_bool_false _ _ (Bool.eq_false_iff.mpr h)]
      simp [ih]
      tauto

theorem mem_jsSort (x : Str) : ∀ (l : List Str), (x ∈ jsSort l ↔ x ∈ l) := by
  intro l
  induction l with
  | nil => simp [jsSort]
  | cons y ys ih =>
    show x ∈ insertSorted y (jsSort ys) ↔ _
    rw [mem_insertSorted]
    simp [ih]

theorem strLe_antisymm : ∀ (a b : Str), strLe a b = true → strLe b a = true → a = b := by
  intro a
  induction a with
  | nil =>
    intro b _ hba
    cases b with
    | nil => rfl
    | cons d ds => simp [strLe] at hba
  | cons c cs ih =>
    intro b hab hba
    cases b with
    | nil => simp [strLe] at hab
    | cons d ds =>
      by_cases hcd : c = d
      · subst hcd
        simp only [strLe, if_pos rfl] at hab hba
        rw [ih ds hab hba]
      · rw [strLe, if_neg hcd, decide_eq_true_eq] at hab
        rw [strLe, if_neg (Ne.symm hcd), decide_eq_true_eq] at hba
        omega

/-! ## Lemmas about the orchestration model -/

theorem promiseAll_isOk_iff : ∀ (ts : List (Except Str Unit)),
    ((promiseAll ts).isOk = true ↔ ∀ t ∈ ts, t = .ok ()) := by
  intro ts
  induction ts with
  | nil => simp [promiseAll, Except.isOk, Except.toBool]
  | cons t rest ih =>
    cases t with
    | ok u =>
      cases u
      rw [show promiseAll (.ok () :: rest) = (promiseAll rest).map (fun l => () :: l) from rfl]
      cases hrest : promiseAll rest with
      | ok l =>
        simp [hrest, Except.map, Except.isOk, Except.toBool] at ih ⊢
        exact ih
      | error e =>
        simp [hrest, Except.map, Except.isOk, Except.toBool] at ih ⊢
        exact ih
    | error e =>
      rw [show promiseAll (.error e :: rest) = .error e from rfl]
      simp [Except.isOk, Except.toBool]

theorem joinResult_eq_promiseAll (ts : List (Except Str Unit)) :
    (downloadOutdatedMods ts).joinResult = promiseAll ts := by
  unfold downloadOutdatedMods
  cases promiseAll ts <;> rfl

theorem downloadOutdatedMods_finished (ts : List (Except Str Unit)) :
    (downloadOutdatedMods ts).reachedFinished = true := by
  unfold downloadOutdatedMods
  cases promiseAll ts <;> rfl

/-! ## Claims -/

/-- Claim C8: `findMatchingMods` returns exactly the subsequence of registry
entries whose `DisplayName` is present in the installed names list (exact,
case-sensitive string match on the character lists), preserving the registry
order (the result is a sublist of the registry); for registry
`[{DisplayName:"A"},{DisplayName:"B"}]` and installed names `["A"]` the result
is exactly the `"A"` entry. -/
theorem C8_findMatching_exact :
    (∀ (reg : List RemoteModEntry) (inst : InstalledMods) (e : RemoteModEntry),
      e ∈ findMatchingMods reg inst ↔ e ∈ reg ∧ e.DisplayName ∈ inst.names) ∧
    (∀ (reg : List RemoteModEntry) (inst : InstalledMods),
      List.Sublist (findMatchingMods reg inst) reg) ∧
    findMatchingMods
        [⟨str "slugA", str "A", str "7", str "urlA"⟩,
         ⟨str "slugB", str "B", str "7", str "urlB"⟩]
        ⟨[str "A"], []⟩ =
      [⟨str "slugA", str "A", str "7", str "urlA"⟩] := by
  refine ⟨?_, ?_, by decide⟩
  · intro reg inst e
    unfold findMatchingMods
    rw [List.mem_filter]
    simp [List.contains]
  · intro reg inst
    exact List.filter_sublist reg

/-- Witness for C8 at a concrete input: the `"A"` entry is matched because its
`DisplayName` is installed. -/
theorem C8_findMatching_exact_witness :
    ⟨str "slugA", str "A", str "7", str "urlA"⟩ ∈
      findMatchingMods [⟨str "slugA", str "A", str "7", str "urlA"⟩]
        ⟨[str "A"], []⟩ :=
  (C8_findMatching_exact.1 [⟨str "slugA", str "A", str "7", str "urlA"⟩]
    ⟨[str "A"], []⟩ ⟨str "slugA", str "A", str "7", str "urlA"⟩).mpr
    ⟨by decide, by decide⟩

/-- Claim C9: `checkOutdatedMods` keeps exactly the matched entries whose
registry `Version` differs (plain string inequality) from the installed version
recorded under that `DisplayName` (an absent record counts as different); it
returns `[]` when every matched entry's `Version` equals the recorded version,
and the full matched sequence when every one differs. -/
theorem C9_checkOutdated_filter :
    (∀ (m : List RemoteModEntry) (inst : InstalledMods) (e : RemoteModEntry),
      e ∈ checkOutdatedMods m inst ↔
        e ∈ m ∧ getKey inst.versions e.DisplayName ≠ some e.Version) ∧
    (∀ (m : List RemoteModEntry) (inst : InstalledMods),
      (∀ e ∈ m, getKey inst.versions e.DisplayName = some e.Version) →
      checkOutdatedMods m inst = []) ∧
    (∀ (m : List RemoteModEntry) (inst : InstalledMods),
      (∀ e ∈ m, getKey inst.versions e.DisplayName ≠ some e.Version) →
      checkOutdatedMods m inst = m) := by
  refine ⟨?_, ?_, ?_⟩
  · intro m inst e
    unfold checkOutdatedMods
    rw [List.mem_filter]
    simp
  · intro m inst h
    unfold checkOutdatedMods
    rw [List.filter_eq_nil_iff]
    intro e he
    simp [h e he]
  · intro m inst h
    unfold checkOutdatedMods
    rw [List.filter_eq_self]
    intro e he
    simp [h e he]

/-- Witness for C9 at concrete inputs: an up-to-date entry yields `[]`, a
version mismatch yields the full matched list. -/
theorem C9_checkOutdated_filter_witness :
    checkOutdatedMods [⟨str "s", str "A", str "2", str "u"⟩]
        ⟨[str "A"], [(str "A", str "2")]⟩ = [] ∧
    checkOutdatedMods [⟨str "s", str "A", str "3", str "u"⟩]
        ⟨[str "A"], [(str "A", str "2")]⟩ =
      [⟨str "s", str "A", str "3", str "u"⟩] :=
  ⟨C9_checkOutdated_filter.2.1 [⟨str "s", str "A", str "2", str "u"⟩]
      ⟨[str "A"], [(str "A", str "2")]⟩ (by decide),
   C9_checkOutdated_filter.2.2 [⟨str "s", str "A", str "3", str "u"⟩]
      ⟨[str "A"], [(str "A", str "2")]⟩ (by decide)⟩

/-- Counterexample to claim C1 at its own scenario (3 outdated mods, task 2's
download stream fails): the orchestrator's overall call is `Promise.all`, which
rejects with task 2's single error instead of resolving with one outcome per
task (no "2 successes and 1 failure" result exists), though the run still
reaches `finished` via the `.catch` handler. -/
theorem C1_counterexample :
    (downloadOutdatedMods [.ok (), .error (str "stream failure"), .ok ()]).joinResult =
      .error (str "stream failure") ∧
    (downloadOutdatedMods [.ok (), .error (str "stream failure"), .ok ()]).joinResult.isOk =
      false ∧
    (downloadOutdatedMods [.ok (), .error (str "stream failure"), .ok ()]).reachedFinished =
      true :=
  ⟨rfl, rfl, rfl⟩

/-- Claim C1 (amended): the orchestrator's join is fail-fast (`Promise.all`),
not wait-all: it resolves with collected outcomes only when every task
succeeds; on any task failure it rejects with a single task error and collects
no per-task outcomes; the rejection is reported (`'Failed to download files'`)
and the run still reaches the `finished` state rather than aborting, in both
cases. -/
theorem C1_joinSemantics (tasks : List (Except Str Unit)) :
    (downloadOutdatedMods tasks).reachedFinished = true ∧
    ((downloadOutdatedMods tasks).joinResult.isOk = true ↔ ∀ t ∈ tasks, t = .ok ()) ∧
    (∀ e, (downloadOutdatedMods tasks).joinResult = .error e →
      (downloadOutdatedMods tasks).reportedError = some e) := by
  refine ⟨downloadOutdatedMods_finished tasks, ?_, ?_⟩
  · rw [joinResult_eq_promiseAll]
    exact promiseAll_isOk_iff tasks
  · intro e he
    rw [joinResult_eq_promiseAll] at he
    unfold downloadOutdatedMods
    rw [he]

/-- Witness for C1 (amended) at a concrete failing scenario. -/
theorem C1_joinSemantics_witness :
    (downloadOutdatedMods [.ok (), .error (str "boom"), .ok ()]).reportedError =
      some (str "boom") :=
  (C1_joinSemantics [.ok (), .error (str "boom"), .ok ()]).2.2 (str "boom") (by decide)

/-- Counterexample to claim C2: when the metadata probe rejects and the body
stream would succeed, `downloadFile` rejects with the probe error and the
download is never attempted — the probe failure is fatal to the task, not a
mere degradation of progress reporting. -/
theorem C2_counterexample :
    (downloadFile ⟨str "s", str "A", str "2", str "u"⟩
        (.error (str "HEAD failed")) (.ok ())).downloadAttempted = false ∧
    (downloadFile ⟨str "s", str "A", str "2", str "u"⟩
        (.error (str "HEAD failed")) (.ok ())).result = .error (str "HEAD failed") :=
  ⟨rfl, rfl⟩

/-- Claim C2 (amended): the un-guarded `await got.head(url)` makes the probe
load-bearing: on probe failure the task rejects with the probe error and the
streaming download is never started; only on probe success is the download
attempted, and then the task settles with the stream's outcome. -/
theorem C2_probeFatal :
    (∀ (item : RemoteModEntry) (e : Str) (body : Except Str Unit),
      (downloadFile item (.error e) body).downloadAttempted = false ∧
      (downloadFile item (.error e) body).result = .error e ∧
      (downloadFile item (.error e) body).progressTotal = none) ∧
    (∀ (item : RemoteModEntry) (len : Str) (body : Except Str Unit),
      (downloadFile item (.ok len) body).downloadAttempted = true ∧
      (downloadFile item (.ok len) body).result = body) := by
  constructor
  · intro item e body
    exact ⟨rfl, rfl, rfl⟩
  · intro item len body
    cases body with
    | ok u =>
      cases u
      exact ⟨rfl, rfl⟩
    | error e => exact ⟨rfl, rfl⟩

/-- Counterexample to claim C3: when the registry fetch fails, the run does
abort before reconciliation with no download tasks, but the error is caught and
only logged — the process terminates with exit status `0`, not a non-zero
outcome. -/
theorem C3_counterexample :
    (checkMods (.error (str "HTTP 500")) (.ok [])
        (fun _ => .ok (str "0")) (fun _ => .ok ())).exitCode = 0 ∧
    (checkMods (.error (str "HTTP 500")) (.ok [])
        (fun _ => .ok (str "0")) (fun _ => .ok ())).reconciled = false ∧
    (checkMods (.error (str "HTTP 500")) (.ok [])
        (fun _ => .ok (str "0")) (fun _ => .ok ())).downloadTasks = [] :=
  ⟨rfl, rfl, rfl⟩

/-- Claim C3 (amended): if the registry fetch or the directory read fails, the
run aborts before reconciliation, creates no download tasks, never reaches
`finished`, and reports the failure — but the error is swallowed by the
`.catch`, so the process exits with status `0` rather than non-zero. -/
theorem C3_startupFailure (registryRes : Except Str (List (Str × RemoteFields)))
    (filesRes : Except Str (List Str))
    (probe : RemoteModEntry → Except Str Str)
    (body : RemoteModEntry → Except Str Unit)
    (h : registryRes.isOk = false ∨ filesRes.isOk = false) :
    (checkMods registryRes filesRes probe body).reconciled = false ∧
    (checkMods registryRes filesRes probe body).downloadTasks = [] ∧
    (checkMods registryRes filesRes probe body).fatalError.isSome = true ∧
    (checkMods registryRes filesRes probe body).reachedFinished = false ∧
    (checkMods registryRes filesRes probe body).exitCode = 0 := by
  cases registryRes with
  | error e => exact ⟨rfl, rfl, rfl, rfl, rfl⟩
  | ok reg =>
    cases filesRes with
    | error e => exact ⟨rfl, rfl, rfl, rfl, rfl⟩
    | ok fs =>
      rcases h with h | h <;> simp [Except.isOk, Except.toBool] at h

/-- Witness for C3 (amended) at a concrete failing registry fetch. -/
theorem C3_startupFailure_witness :
    (checkMods (.error (str "HTTP 500")) (.ok [str "a.pak"])
        (fun _ => .ok (str "9")) (fun _ => .ok ())).fatalError.isSome = true :=
  (C3_startupFailure (.error (str "HTTP 500")) (.ok [str "a.pak"])
    (fun _ => .ok (str "9")) (fun _ => .ok ()) (Or.inl rfl)).2.2.1

/-! ## Structured parses of well-formed mod filenames -/

theorem replaceFirst_tail (pat₀ : Str) (c : Char) (pat rep : Str)
    (hpat : pat = pat₀ ++ [c]) (A : Str) (hA : occursB pat (A ++ pat₀) = false) :
    replaceFirst pat rep (A ++ pat) = A ++ rep := by
  have h := replaceFirst_boundary pat₀ c pat rep hpat A [] hA
  simpa using h

/-- Parsing a filename of the shape `<Name> - V<k>_P.pak` in which the
separator, the pak suffix and the `V` marker occur only at their designated
positions recovers the raw name `Name` and (after trimming) the raw version
segment `k`, with `'1'` substituted when the segment is empty. -/
theorem rawParse_structured (Name k : Str)
    (h1 : occursB sepDash (Name ++ [' ', '-']) = false)
    (h2 : occursB sepDash (('V' :: k) ++ pakSuffix) = false)
    (h3 : occursB pakSuffix (('V' :: k) ++ pakSuffix.dropLast) = false)
    (h4 : occursB vMark k = false) :
    rawParse (Name ++ sepDash ++ ('V' :: k) ++ pakSuffix) =
      some (Name, trim (if k.isEmpty then str "1" else k)) := by
  have hsplitTop : jsSplit sepDash (Name ++ sepDash ++ (('V' :: k) ++ pakSuffix)) =
      Name :: jsSplit sepDash (('V' :: k) ++ pakSuffix) :=
    jsSplit_boundary [' ', '-'] ' ' sepDash (by decide) Name (('V' :: k) ++ pakSuffix) h1
  have hsplitRest : jsSplit sepDash (('V' :: k) ++ pakSuffix) = [('V' :: k) ++ pakSuffix] :=
    jsSplit_no_occ sepDash _ h2
  have hreplace : replaceFirst pakSuffix [] (('V' :: k) ++ pakSuffix) = 'V' :: k := by
    have h := replaceFirst_tail pakSuffix.dropLast 'k' pakSuffix [] (by decide)
      ('V' :: k) h3
    simpa using h
  have hsplitV : jsSplit vMark ('V' :: k) = [[], k] := by
    have hb : jsSplit vMark ([] ++ vMark ++ k) = [] :: jsSplit vMark k :=
      jsSplit_boundary [] 'V' vMark (by decide) [] k (by decide)
    have hk : jsSplit vMark k = [k] := jsSplit_no_occ vMark k h4
    simpa [hk] using hb
  unfold rawParse
  rw [show Name ++ sepDash ++ ('V' :: k) ++ pakSuffix =
      Name ++ sepDash ++ (('V' :: k) ++ pakSuffix) by simp]
  rw [hsplitTop, hsplitRest]
  rw [if_pos (by simp)]
  simp only [List.getD_cons_zero, List.getD_cons_succ]
  rw [hreplace, hsplitV]
  simp only [List.getD_cons_succ, List.getD_cons_zero]

/-- Parsing a filename of the shape `<Name> - _P.pak` (no `V` segment) yields
the raw name and the default version `'1'`. -/
theorem rawParse_noV (Name : Str)
    (h1 : occursB sepDash (Name ++ [' ', '-']) = false) :
    rawParse (Name ++ sepDash ++ pakSuffix) = some (Name, str "1") := by
  have hsplitTop : jsSplit sepDash (Name ++ sepDash ++ pakSuffix) =
      Name :: jsSplit sepDash pakSuffix :=
    jsSplit_boundary [' ', '-'] ' ' sepDash (by decide) Name pakSuffix h1
  have hsplitRest : jsSplit sepDash pakSuffix = [pakSuffix] :=
    jsSplit_no_occ sepDash _ (by decide)
  have hreplace : replaceFirst pakSuffix [] pakSuffix = [] := by
    have h := replaceFirst_tail pakSuffix.dropLast 'k' pakSuffix [] (by decide) [] (by decide)
    simpa using h
  unfold rawParse
  rw [hsplitTop, hsplitRest]
  rw [if_pos (by simp)]
  simp only [List.getD_cons_zero, List.getD_cons_succ]
  rw [hreplace]
  rw [show jsSplit vMark [] = [[]] from rfl]
  simp only [List.getD_cons_succ, List.getD_cons_zero]
  rfl

/-- Counterexample to claim C4 at its own input `"A - B - V2_P.pak"`: JS
`split(' - ')` splits on every occurrence, so part 1 is `"B"` (the segment
between the first and second separators), not the full remainder
`"B - V2_P.pak"`; `"B"` has no `V` segment, so the stored version is the
default `"1"`, not the claimed `"2"`. -/
theorem C4_counterexample :
    jsSplit sepDash (str "A - B - V2_P.pak") = [str "A", str "B", str "V2_P.pak"] ∧
    getKey (getInstalledMods [str "A - B - V2_P.pak"]).versions (str "A") =
      some (str "1") ∧
    some (str "1") ≠ some (str "2") :=
  ⟨by decide, by decide, by decide⟩

/-- Claim C4 (amended): the parser splits on every occurrence of `' - '`;
filenames producing fewer than 2 parts are skipped; part 0 (trimmed) is the
name and the version is extracted from part 1, the segment between the first
and second separators only — so `"A - B - V2_P.pak"` parses to name `"A"` with
default version `"1"`. -/
theorem C4_splitAllOccurrences (item : Str) :
    ((jsSplit sepDash item).length ≤ 1 → ∀ mods, parseStep mods item = mods) ∧
    (∀ (mods : InstalledMods), 1 < (jsSplit sepDash item).length →
      (parseStep mods item).names =
        mods.names ++ [trim ((jsSplit sepDash item).getD 0 [])]) ∧
    getInstalledMods [str "A - B - V2_P.pak"] = ⟨[str "A"], [(str "A", str "1")]⟩ := by
  refine ⟨?_, ?_, by decide⟩
  · intro h mods
    unfold parseStep rawParse
    rw [if_neg (by omega)]
  · intro mods h
    unfold parseStep rawParse
    rw [if_pos h]

/-- Witness for C4 (amended): a filename without the separator is skipped. -/
theorem C4_splitAllOccurrences_witness :
    parseStep ⟨[], []⟩ (str "plain.pak") = ⟨[], []⟩ :=
  (C4_splitAllOccurrences (str "plain.pak")).1 (by decide) ⟨[], []⟩

/-- Helper for C5: the parse fold preserves "every listed name has a versions
entry" provided every accepted filename's raw name is trim-invariant. -/
theorem foldl_parseStep_lookup : ∀ (fs : List Str) (acc : InstalledMods),
    (∀ item ∈ fs, (rawParse item).all (fun pr => trim pr.1 == pr.1) = true) →
    (∀ n ∈ acc.names, (getKey acc.versions n).isSome = true) →
    ∀ n ∈ (fs.foldl parseStep acc).names,
      (getKey (fs.foldl parseStep acc).versions n).isSome = true := by
  intro fs
  induction fs with
  | nil =>
    intro acc _ hacc
    exact hacc
  | cons f fs ih =>
    intro acc hall hacc
    rw [List.foldl_cons]
    refine ih (parseStep acc f) (fun item h => hall item (List.mem_cons_of_mem f h)) ?_
    cases hr : rawParse f with
    | none =>
      unfold parseStep
      rw [hr]
      exact hacc
    | some pr =>
      obtain ⟨nm, ver⟩ := pr
      have htrim : trim nm = nm := by
        have h := hall f (List.mem_cons_self f fs)
        rw [hr] at h
        simpa using h
      unfold parseStep
      rw [hr]
      intro n hn
      rcases List.mem_append.mp hn with hn | hn
      · by_cases hkey : n = nm
        · subst hkey
          rw [getKey_setKey_self]
          rfl
        · rw [getKey_setKey_ne acc.versions nm ver n hkey]
          exact hacc n hn
      · have : n = nm := by
          rw [List.mem_singleton] at hn
          rw [hn, htrim]
        subst this
        rw [getKey_setKey_self]
        rfl

/-- Counterexample to claim C5 at `"Foo  - V2_P.pak"` (two spaces before the
dash): the raw name is `"Foo "`, the names list receives the trimmed `"Foo"`,
but the versions mapping is keyed by the untrimmed `"Foo "` — so the lookup of
the listed name `"Foo"` fails, contradicting "the versions mapping entry for
that file is keyed by the same trimmed name". -/
theorem C5_counterexample :
    (str "Foo") ∈ (getInstalledMods [str "Foo  - V2_P.pak"]).names ∧
    getKey (getInstalledMods [str "Foo  - V2_P.pak"]).versions (str "Foo") = none ∧
    getKey (getInstalledMods [str "Foo  - V2_P.pak"]).versions (str "Foo ") =
      some (str "2") :=
  ⟨by decide, by decide, by decide⟩

/-- Claim C5 (amended): the name is trimmed before being appended to the names
list and the version is trimmed before being stored, but the versions mapping
is keyed by the raw, untrimmed name.  Whenever every accepted filename's raw
name equals its trimmed form, every name in the names list has a successful
versions lookup. -/
theorem C5_namesHaveVersions (files : List Str)
    (h : ∀ item ∈ files, (rawParse item).all (fun pr => trim pr.1 == pr.1) = true) :
    ∀ n ∈ (getInstalledMods files).names,
      (getKey (getInstalledMods files).versions n).isSome = true := by
  unfold getInstalledMods
  refine foldl_parseStep_lookup (jsSort files) ⟨[], []⟩ ?_ (by intro n hn; simp at hn)
  intro item hitem
  exact h item ((mem_jsSort item files).mp hitem)

/-- Witness for C5 (amended) on a concrete listing. -/
theorem C5_namesHaveVersions_witness :
    (getKey (getInstalledMods [str "Foo - V2_P.pak"]).versions (str "Foo")).isSome = true :=
  C5_namesHaveVersions [str "Foo - V2_P.pak"] (by decide) (str "Foo") (by decide)

/-- Counterexample to claim C6: take `Name := "A"` and `k := "2 - 3"` (so
`Name` contains no `' - '` and `k` contains no `'V'`).  The filename
`"A - V2 - 3_P.pak"` is of the claimed form, yet parsing yields version `"2"`,
not `"<k>" = "2 - 3"`, because the split on `' - '` also cuts inside `k`. -/
theorem C6_counterexample :
    str "A" ++ sepDash ++ ('V' :: str "2 - 3") ++ pakSuffix = str "A - V2 - 3_P.pak" ∧
    rawParse (str "A - V2 - 3_P.pak") = some (str "A", str "2") ∧
    str "2" ≠ str "2 - 3" :=
  ⟨by decide, by decide, by decide⟩

/-- Claim C6 (amended): for filenames `"Name - V<k>_P.pak"` in which `' - '`
occurs only at the designated separator (neither inside `Name` nor overlapping
its end, nor inside `V<k>_P.pak`), `'_P.pak'` occurs only as the final suffix,
`k` contains no `'V'` and is non-empty, and `Name` and `k` are trim-invariant,
parsing yields name `Name` and version `k`; for `"Name - _P.pak"` (no `V`
segment) the version defaults to `"1"`. -/
theorem C6_wellFormedParse (Name k : Str)
    (h1 : occursB sepDash (Name ++ [' ', '-']) = false)
    (h2 : occursB sepDash (('V' :: k) ++ pakSuffix) = false)
    (h3 : occursB pakSuffix (('V' :: k) ++ pakSuffix.dropLast) = false)
    (h4 : occursB vMark k = false)
    (h5 : trim Name = Name) (h6 : trim k = k) (h7 : k ≠ []) :
    getInstalledMods [Name ++ sepDash ++ ('V' :: k) ++ pakSuffix] =
      ⟨[Name], [(Name, k)]⟩ ∧
    getInstalledMods [Name ++ sepDash ++ pakSuffix] =
      ⟨[Name], [(Name, str "1")]⟩ := by
  have hkE : k.isEmpty = false := by
    cases k with
    | nil => exact absurd rfl h7
    | cons c cs => rfl
  constructor
  · have hparse := rawParse_structured Name k h1 h2 h3 h4
    rw [hkE] at hparse
    rw [if_bool_false _ _ rfl] at hparse
    rw [h6] at hparse
    show parseStep ⟨[], []⟩ (Name ++ sepDash ++ ('V' :: k) ++ pakSuffix) = _
    unfold parseStep
    rw [hparse]
    simp [setKey, h5]
  · have hparse := rawParse_noV Name h1
    show parseStep ⟨[], []⟩ (Name ++ sepDash ++ pakSuffix) = _
    unfold parseStep
    rw [hparse]
    simp [setKey, h5]

/-- Witness for C6 (amended) at `Name := "Foo"`, `k := "2"`. -/
theorem C6_wellFormedParse_witness :
    getInstalledMods [str "Foo" ++ sepDash ++ ('V' :: str "2") ++ pakSuffix] =
      ⟨[str "Foo"], [(str "Foo", str "2")]⟩ ∧
    getInstalledMods [str "Foo" ++ sepDash ++ pakSuffix] =
      ⟨[str "Foo"], [(str "Foo", str "1")]⟩ :=
  C6_wellFormedParse (str "Foo") (str "2") (by decide) (by decide) (by decide)
    (by decide) (by decide) (by decide) (by decide)

/-- Claim C7: for two distinct filenames parsing to the same raw name, the
listing is sorted (code-unit lexicographic order) before parsing regardless of
the input order, the names list receives one append per file, and the file
that is last in sorted order determines the retained version (last-writer-
wins). -/
theorem C7_lastWriterWins (a b n va vb : Str)
    (ha : rawParse a = some (n, va)) (hb : rawParse b = some (n, vb))
    (hle : strLe a b = true) (hne : a ≠ b) :
    (getInstalledMods [a, b]).versions = [(n, vb)] ∧
    (getInstalledMods [b, a]).versions = [(n, vb)] ∧
    (getInstalledMods [a, b]).names = [trim n, trim n] ∧
    getKey (getInstalledMods [a, b]).versions n = some vb := by
  have hba : strLe b a = false := by
    cases hba' : strLe b a with
    | false => rfl
    | true => exact absurd (strLe_antisymm a b hle hba') hne
  have hsort1 : jsSort [a, b] = [a, b] := by
    show insertSorted a [b] = [a, b]
    simp only [insertSorted]
    rw [if_bool_true _ _ hle]
  have hsort2 : jsSort [b, a] = [a, b] := by
    show insertSorted b [a] = [a, b]
    simp only [insertSorted]
    rw [if_bool_false _ _ hba]
  have hfold : [a, b].foldl parseStep ⟨[], []⟩ =
      ⟨[trim n, trim n], [(n, vb)]⟩ := by
    have hstep1 : parseStep ⟨[], []⟩ a = ⟨[trim n], [(n, va)]⟩ := by
      unfold parseStep
      rw [ha]
      simp [setKey]
    have hstep2 : parseStep ⟨[trim n], [(n, va)]⟩ b =
        ⟨[trim n, trim n], [(n, vb)]⟩ := by
      unfold parseStep
      rw [hb]
      simp [setKey]
    rw [List.foldl_cons, hstep1, List.foldl_cons, hstep2, List.foldl_nil]
  have h1 : getInstalledMods [a, b] = ⟨[trim n, trim n], [(n, vb)]⟩ := by
    unfold getInstalledMods
    rw [hsort1, hfold]
  have h2 : getInstalledMods [b, a] = ⟨[trim n, trim n], [(n, vb)]⟩ := by
    unfold getInstalledMods
    rw [hsort2, hfold]
  refine ⟨by rw [h1], by rw [h2], by rw [h1], ?_⟩
  rw [h1]
  simp [getKey]

/-- Witness for C7 at the spec's own example
`["Foo - V1_P.pak", "Foo - V2_P.pak"]`: the retained version is `"2"`. -/
theorem C7_lastWriterWins_witness :
    (getInstalledMods [str "Foo - V1_P.pak", str "Foo - V2_P.pak"]).versions =
      [(str "Foo", str "2")] ∧
    (getInstalledMods [str "Foo - V2_P.pak", str "Foo - V1_P.pak"]).versions =
      [(str "Foo", str "2")] ∧
    (getInstalledMods [str "Foo - V1_P.pak", str "Foo - V2_P.pak"]).names =
      [str "Foo", str "Foo"] ∧
    getKey (getInstalledMods [str "Foo - V1_P.pak", str "Foo - V2_P.pak"]).versions
      (str "Foo") = some (str "2") :=
  C7_lastWriterWins (str "Foo - V1_P.pak") (str "Foo - V2_P.pak") (str "Foo")
    (str "1") (str "2") (by decide) (by decide) (by decide) (by decide)

/-- The download filename decomposed at the separator: the derived name
`` `${DisplayName} - V${Version} _P.pak` `` is `DisplayName`, the separator,
then the version segment `V<Version><space>` followed by the pak suffix. -/
theorem fileName_decomp (item : RemoteModEntry) :
    fileName item =
      item.DisplayName ++ sepDash ++ ('V' :: (item.Version ++ [' '])) ++ pakSuffix := by
  show item.DisplayName ++ str " - V" ++ item.Version ++ str " _P.pak" = _
  rw [show str " - V" = sepDash ++ ['V'] from rfl,
    show str " _P.pak" = (' ' :: pakSuffix : Str) from rfl]
  simp

/-- Counterexample to claim C10: the entry with `DisplayName := "A"` and
`Version := "2 - 3"` satisfies the claim's hypotheses (no `' - '` in the name,
no `'V'` in the version, both trim-invariant), yet parsing its derived download
filename `"A - V2 - 3 _P.pak"` stores version `"2"`, so on the next run the mod
is still reported outdated. -/
theorem C10_counterexample :
    fileName ⟨str "s", str "A", str "2 - 3", str "u"⟩ = str "A - V2 - 3 _P.pak" ∧
    getInstalledMods [str "A - V2 - 3 _P.pak"] =
      ⟨[str "A"], [(str "A", str "2")]⟩ ∧
    checkOutdatedMods [⟨str "s", str "A", str "2 - 3", str "u"⟩]
        (getInstalledMods [str "A - V2 - 3 _P.pak"]) =
      [⟨str "s", str "A", str "2 - 3", str "u"⟩] :=
  ⟨by decide, by decide, by decide⟩

/-- Claim C10 (amended): for a registry entry whose `DisplayName` and `Version`
are trim-invariant, with `' - '` occurring nowhere in the derived filename but
at the designated separator, `'_P.pak'` occurring only as the final suffix and
`'V'` not occurring in the version, parsing the derived download filename as a
one-element listing recovers exactly the `DisplayName` (names list) and the
`Version` (versions mapping) — the freshly downloaded mod matches and is no
longer reported outdated against the same registry entry. -/
theorem C10_downloadRoundTrip (item : RemoteModEntry)
    (hD : occursB sepDash (item.DisplayName ++ [' ', '-']) = false)
    (hR : occursB sepDash (('V' :: (item.Version ++ [' '])) ++ pakSuffix) = false)
    (hP : occursB pakSuffix (('V' :: (item.Version ++ [' '])) ++ pakSuffix.dropLast) = false)
    (hV : occursB vMark item.Version = false)
    (htD : trim item.DisplayName = item.DisplayName)
    (htV : trim item.Version = item.Version) :
    getInstalledMods [fileName item] =
      ⟨[item.DisplayName], [(item.DisplayName, item.Version)]⟩ ∧
    findMatchingMods [item] (getInstalledMods [fileName item]) = [item] ∧
    checkOutdatedMods [item] (getInstalledMods [fileName item]) = [] := by
  have hV' : occursB vMark (item.Version ++ [' ']) = false := by
    rw [show vMark = ['V'] from rfl] at hV ⊢
    rw [occursB_single] at hV
    rw [occursB_single, List.any_append, hV]
    decide
  have hparse := rawParse_structured item.DisplayName (item.Version ++ [' '])
    hD hR hP hV'
  have hne : (item.Version ++ [' ']).isEmpty = false := by
    simp
  rw [hne, if_bool_false _ _ rfl, trim_append_space, htV] at hparse
  have hmods : getInstalledMods [fileName item] =
      ⟨[item.DisplayName], [(item.DisplayName, item.Version)]⟩ := by
    rw [show getInstalledMods [fileName item] = parseStep ⟨[], []⟩ (fileName item)
      from rfl]
    unfold parseStep
    rw [fileName_decomp, hparse]
    simp [setKey, htD]
  refine ⟨hmods, ?_, ?_⟩
  · rw [hmods]
    unfold findMatchingMods
    rw [List.filter_eq_self]
    intro e he
    rw [List.mem_singleton] at he
    subst he
    simp [List.contains]
  · rw [hmods]
    unfold checkOutdatedMods
    rw [List.filter_eq_nil_iff]
    intro e he
    rw [List.mem_singleton] at he
    subst he
    simp [getKey]

/-- Witness for C10 (amended) at a concrete well-formed entry. -/
theorem C10_downloadRoundTrip_witness :
    getInstalledMods [fileName ⟨str "s", str "Mod", str "12", str "u"⟩] =
      ⟨[str "Mod"], [(str "Mod", str "12")]⟩ ∧
    findMatchingMods [⟨str "s", str "Mod", str "12", str "u"⟩]
        (getInstalledMods [fileName ⟨str "s", str "Mod", str "12", str "u"⟩]) =
      [⟨str "s", str "Mod", str "12", str "u"⟩] ∧
    checkOutdatedMods [⟨str "s", str "Mod", str "12", str "u"⟩]
        (getInstalledMods [fileName ⟨str "s", str "Mod", str "12", str "u"⟩]) = [] :=
  C10_downloadRoundTrip ⟨str "s", str "Mod", str "12", str "u"⟩
    (by decide) (by decide) (by decide) (by decide) (by decide) (by decide)

end DRG
